import Mathlib

/-!
Verification of `libs/image/include/image/ColorTransform.h`.

The C++ header is pure numeric code over 32-bit floats; we embed it
shallowly with real-number arithmetic: every float expression of the
source is translated literally to the corresponding expression over `ℝ`,
`std::ceil` becomes `Int.ceil`, a float-to-integer cast becomes
truncation toward zero, and the debug assertions guarding the packers
become an `Option` result (`none` models the assertion firing).
`LinearImage` is modelled by its interface: width, height, channel count
and a pixel accessor, as described by the collaborator contract.
-/

/-- Three-component float vector, mirroring `math::float3`. -/
@[ext] structure float3 where
  x : ℝ
  y : ℝ
  z : ℝ

/-- Four-component float vector, mirroring `math::float4`; `w` is the
`a` (alpha / multiplier) slot. -/
@[ext] structure float4 where
  x : ℝ
  y : ℝ
  z : ℝ
  w : ℝ

/-- The `math::clamp(v, lo, hi)` helper from the math library. -/
noncomputable def clamp (v lo hi : ℝ) : ℝ := min (max v lo) hi

/-- The `saturate(v)` helper: clamp to the unit interval. -/
noncomputable def saturate (v : ℝ) : ℝ := clamp v 0 1

/-- Component-wise `saturate` on a `float3`. -/
noncomputable def saturate3 (v : float3) : float3 :=
  ⟨saturate v.x, saturate v.y, saturate v.z⟩

/-- Component-wise scalar multiplication on a `float3`. -/
noncomputable def mulScalar3 (v : float3) (s : ℝ) : float3 :=
  ⟨v.x * s, v.y * s, v.z * s⟩

/-- Component-wise scalar division on a `float3`. -/
noncomputable def divScalar3 (v : float3) (s : ℝ) : float3 :=
  ⟨v.x / s, v.y / s, v.z / s⟩

/-- `linearToRGBM` (ColorTransform.h, lines 32-51): square root of each
linear component, divide by the range 16, take the maximum against the
`1e-6` epsilon, clamp it to `[1/16, 1]`, round up to a multiple of
`1/255`, and divide the mantissa through, saturated. -/
noncomputable def linearToRGBM (linear : float3) : float4 :=
  let r := Real.sqrt linear.x / 16
  let g := Real.sqrt linear.y / 16
  let b := Real.sqrt linear.z / 16
  let maxComponent := max (max r g) (max b 1e-6)
  let a0 := clamp maxComponent (1 / 16) 1
  let a := (Int.ceil (a0 * 255) : ℝ) / 255
  ⟨saturate (r / a), saturate (g / a), saturate (b / a), a⟩

/-- `RGBMtoLinear` (ColorTransform.h, lines 53-61): multiply the mantissa
by `a * 16` and square each component. -/
noncomputable def RGBMtoLinear (rgbm : float4) : float3 :=
  let lx := rgbm.x * (rgbm.w * 16)
  let ly := rgbm.y * (rgbm.w * 16)
  let lz := rgbm.z * (rgbm.w * 16)
  ⟨lx * lx, ly * ly, lz * lz⟩

/-- The RGBM encoder exactly as the specification words its steps:
component-wise square root, divide by 16, `maxComponent` as the
four-way maximum `max(r, g, b, 1e-6)`, `M = clamp(maxComponent, 1/16, 1)`
quantized to `ceil(M*255)/255`, mantissa saturated after division by `M`.
Used only to compare against `linearToRGBM` as embedded from the code. -/
noncomputable def linearToRGBMSpecSteps (v : float3) : float4 :=
  let r := Real.sqrt v.x / 16
  let g := Real.sqrt v.y / 16
  let b := Real.sqrt v.z / 16
  let maxComponent := max r (max g (max b 1e-6))
  let M0 := clamp maxComponent (1 / 16) 1
  let M := (Int.ceil (M0 * 255) : ℝ) / 255
  ⟨saturate (r / M), saturate (g / M), saturate (b / M), M⟩

/-- The clamped maximum component computed inside the RGBM encoder just
before quantization of the multiplier. -/
noncomputable def rgbmClampedMax (v : float3) : ℝ :=
  clamp (max (max (Real.sqrt v.x / 16) (Real.sqrt v.y / 16))
    (max (Real.sqrt v.z / 16) 1e-6)) (1 / 16) 1

/-- `linearTosRGB` for `float3` (ColorTransform.h, lines 63-78): the
piecewise sRGB transfer function applied to each of the three components,
with the high branch written `1.055 * pow(x, 1/2.4) - 0.055`. -/
noncomputable def linearTosRGB (linear : float3) : float3 :=
  ⟨if linear.x ≤ 0.0031308 then linear.x * 12.92
    else 1.055 * linear.x ^ ((1 : ℝ) / 2.4) - 0.055,
   if linear.y ≤ 0.0031308 then linear.y * 12.92
    else 1.055 * linear.y ^ ((1 : ℝ) / 2.4) - 0.055,
   if linear.z ≤ 0.0031308 then linear.z * 12.92
    else 1.055 * linear.z ^ ((1 : ℝ) / 2.4) - 0.055⟩

/-- `sRGBToLinear<math::float3>` (ColorTransform.h, lines 94-109): the
inverse piecewise transfer function on three components, with the low
branch written `x * (1.0/12.92)`. -/
noncomputable def sRGBToLinear3 (sRGB : float3) : float3 :=
  ⟨if sRGB.x ≤ 0.04045 then sRGB.x * (1 / 12.92)
    else ((sRGB.x + 0.055) / 1.055) ^ (2.4 : ℝ),
   if sRGB.y ≤ 0.04045 then sRGB.y * (1 / 12.92)
    else ((sRGB.y + 0.055) / 1.055) ^ (2.4 : ℝ),
   if sRGB.z ≤ 0.04045 then sRGB.z * (1 / 12.92)
    else ((sRGB.z + 0.055) / 1.055) ^ (2.4 : ℝ)⟩

/-- `sRGBToLinear<math::float4>` (ColorTransform.h, lines 111-127): the
loop maps the first three components; the fourth is copied through by the
final `linear[3] = sRGB[3]`. -/
noncomputable def sRGBToLinear4 (sRGB : float4) : float4 :=
  ⟨if sRGB.x ≤ 0.04045 then sRGB.x * (1 / 12.92)
    else ((sRGB.x + 0.055) / 1.055) ^ (2.4 : ℝ),
   if sRGB.y ≤ 0.04045 then sRGB.y * (1 / 12.92)
    else ((sRGB.y + 0.055) / 1.055) ^ (2.4 : ℝ),
   if sRGB.z ≤ 0.04045 then sRGB.z * (1 / 12.92)
    else ((sRGB.z + 0.055) / 1.055) ^ (2.4 : ℝ),
   sRGB.w⟩

/-- `linearToSRGB<math::float3>` (ColorTransform.h, lines 132-142): the
same piecewise transfer function as `linearTosRGB`, written with the
ternary operator and the high branch `powf(x, 1/2.4) * 1.055 - 0.055`. -/
noncomputable def linearToSRGB3 (color : float3) : float3 :=
  ⟨if color.x ≤ 0.0031308 then color.x * 12.92
    else color.x ^ ((1 : ℝ) / 2.4) * 1.055 - 0.055,
   if color.y ≤ 0.0031308 then color.y * 12.92
    else color.y ^ ((1 : ℝ) / 2.4) * 1.055 - 0.055,
   if color.z ≤ 0.0031308 then color.z * 12.92
    else color.z ^ ((1 : ℝ) / 2.4) * 1.055 - 0.055⟩

/-- The scalar piecewise sRGB-to-linear rule as the claim words it:
`x/12.92` for `x ≤ 0.04045`, otherwise `((x + 0.055)/1.055)^2.4`. Used
only to compare against the embedded vector overloads. -/
noncomputable def sRGBToLinearScalarRule (c : ℝ) : ℝ :=
  if c ≤ 0.04045 then c / 12.92 else ((c + 0.055) / 1.055) ^ (2.4 : ℝ)

/-- The linear-image collaborator, modelled by its interface contract:
immutable width, height and channel count, plus a pixel accessor giving
the float value of channel `c` of pixel `(x, y)`. -/
structure LinearImage where
  width : ℕ
  height : ℕ
  channels : ℕ
  pix : ℕ → ℕ → ℕ → ℝ

/-- `image.get<float3>(x, y)`: the first three channels of a pixel. -/
def LinearImage.get3 (img : LinearImage) (x y : ℕ) : float3 :=
  ⟨img.pix x y 0, img.pix x y 1, img.pix x y 2⟩

/-- The C++ float-to-integer conversion `T(f)`: truncation toward zero. -/
noncomputable def truncCast (r : ℝ) : ℤ :=
  if 0 ≤ r then Int.floor r else Int.ceil r

/-- Indexing a `float3` by component number, as `v[i]` does. -/
noncomputable def comp3 (v : float3) (c : ℕ) : ℝ :=
  if c = 0 then v.x else if c = 1 then v.y else if c = 2 then v.z else 0

/-- `fromLinearTosRGB<T>` (ColorTransform.h, lines 146-165), with
`maxT = std::numeric_limits<T>::max()`. The destination buffer is the
row-major list of output samples, three per pixel (each sample occupies
`sizeof(T)` bytes in the C++ buffer); `none` models the
`assert(channels >= 3)` firing. -/
noncomputable def fromLinearTosRGB (maxT : ℕ) (image : LinearImage) : Option (List ℤ) :=
  if 3 ≤ image.channels then
    some ((List.range image.height).flatMap fun y =>
      (List.range image.width).flatMap fun x =>
        let l := mulScalar3 (linearTosRGB (saturate3 (image.get3 x y))) (maxT : ℝ)
        [truncCast l.x, truncCast l.y, truncCast l.z])
  else none

/-- `fromLinearToRGB<T>` (ColorTransform.h, lines 169-188): same loop as
`fromLinearTosRGB` but without the transfer function. -/
noncomputable def fromLinearToRGB (maxT : ℕ) (image : LinearImage) : Option (List ℤ) :=
  if 3 ≤ image.channels then
    some ((List.range image.height).flatMap fun y =>
      (List.range image.width).flatMap fun x =>
        let l := mulScalar3 (saturate3 (image.get3 x y)) (maxT : ℝ)
        [truncCast l.x, truncCast l.y, truncCast l.z])
  else none

/-- `fromLinearToGrayscale<T>` (ColorTransform.h, lines 215-230): one
output sample per pixel, reading channel 0 along each row; `none` models
the `assert(channels == 1)` firing. -/
noncomputable def fromLinearToGrayscale (maxT : ℕ) (image : LinearImage) : Option (List ℤ) :=
  if image.channels = 1 then
    some ((List.range image.height).flatMap fun y =>
      (List.range image.width).map fun x =>
        truncCast (saturate (image.pix x y 0) * (maxT : ℝ)))
  else none

/-- The flat pixel storage written by `toLinear<T>` (ColorTransform.h,
lines 235-249): for each row `y` the source row pointer is
`src + y * bpr` reinterpreted as `T` samples, so component `k` of pixel
`x` sits at byte offset `y * bpr + (x*3 + k) * sizeofT`; `src` maps a
byte offset to the `T` sample starting there, `proc` decodes one raw
sample to float, the vector is divided by `maxT` and transformed. -/
noncomputable def toLinearBuf (sizeofT maxT w h bpr : ℕ) (src : ℕ → ℕ)
    (proc : ℕ → ℝ) (transform : float3 → float3) : List float3 :=
  (List.range h).flatMap fun y =>
    (List.range w).map fun x =>
      transform (divScalar3
        ⟨proc (src (y * bpr + (x * 3) * sizeofT)),
         proc (src (y * bpr + (x * 3 + 1) * sizeofT)),
         proc (src (y * bpr + (x * 3 + 2) * sizeofT))⟩ (maxT : ℝ))

/-- `toLinear<T>` (ColorTransform.h, lines 235-249): a `w × h` 3-channel
linear image over the flat storage of `toLinearBuf`. -/
noncomputable def toLinear (sizeofT maxT w h bpr : ℕ) (src : ℕ → ℕ)
    (proc : ℕ → ℝ) (transform : float3 → float3) : LinearImage :=
  ⟨w, h, 3, fun x y c =>
    comp3 ((toLinearBuf sizeofT maxT w h bpr src proc transform).getD
      (y * w + x) ⟨0, 0, 0⟩) c⟩

/-- A 1×1 three-channel all-zero image, used as a concrete witness input. -/
noncomputable def img3ch : LinearImage := ⟨1, 1, 3, fun _ _ _ => 0⟩

/-- A 1×1 single-channel all-zero image, used as a concrete witness input. -/
noncomputable def img1ch : LinearImage := ⟨1, 1, 1, fun _ _ _ => 0⟩

/-- A 1×1 two-channel all-zero image: wrong channel count for grayscale. -/
noncomputable def img2ch : LinearImage := ⟨1, 1, 2, fun _ _ _ => 0⟩

lemma linearToRGBM_w (v : float3) :
    (linearToRGBM v).w = (Int.ceil (rgbmClampedMax v * 255) : ℝ) / 255 := rfl

lemma rgbmClampedMax_lower (v : float3) : 1 / 16 ≤ rgbmClampedMax v :=
  le_min (le_max_right _ _) (by norm_num)

lemma rgbmClampedMax_upper (v : float3) : rgbmClampedMax v ≤ 1 :=
  min_le_right _ _

lemma saturate_nonneg (v : ℝ) : 0 ≤ saturate v :=
  le_min (le_max_right _ _) (by norm_num)

lemma saturate_le_one (v : ℝ) : saturate v ≤ 1 :=
  min_le_right _ _

lemma saturate_eq_self (v : ℝ) (h0 : 0 ≤ v) (h1 : v ≤ 1) : saturate v = v := by
  unfold saturate clamp
  rw [max_eq_left h0, min_eq_left h1]

lemma saturate_eq_one (v : ℝ) (h1 : 1 ≤ v) : saturate v = 1 := by
  unfold saturate clamp
  rw [max_eq_left (le_trans (by norm_num) h1), min_eq_right h1]

/-- Claim C1: `linearToRGBM` computes exactly the spec's step sequence:
component-wise square root, divide by 16, `maxComponent = max(r,g,b,1e-6)`,
`M = clamp(maxComponent, 1/16, 1)` rounded up to a `1/255` step, mantissa
equal to the saturated range-divided components over `M`, with `M` as the
fourth output component. -/
theorem linearToRGBM_matches_spec_steps (v : float3) :
    linearToRGBM v = linearToRGBMSpecSteps v := by
  simp only [linearToRGBM, linearToRGBMSpecSteps]
  rw [max_assoc]

lemma linearToRGBM_black_w : (linearToRGBM ⟨0, 0, 0⟩).w = 16 / 255 := by
  rw [linearToRGBM_w]
  have h1 : rgbmClampedMax ⟨0, 0, 0⟩ = 1 / 16 := by
    unfold rgbmClampedMax clamp
    rw [Real.sqrt_zero]
    norm_num
  rw [h1]
  have hceil : Int.ceil ((1 : ℝ) / 16 * 255) = 16 := by
    rw [Int.ceil_eq_iff]
    constructor <;> norm_num
  rw [hceil]
  norm_num

/-- Claim C2, counterexample: encoding pure black does NOT give a fourth
component equal to `1/16`; the quantization `ceil(M*255)/255` raises it to
`16/255`, which is strictly larger. -/
theorem linearToRGBM_black_M_ne_one_sixteenth :
    (linearToRGBM ⟨0, 0, 0⟩).w ≠ 1 / 16 := by
  rw [linearToRGBM_black_w]
  norm_num

/-- Claim C2, amended: encoding pure black yields the fourth component
`16/255` (the clamp floor `1/16` rounded up to the next `1/255` step), and
the multiplier is strictly positive — hence never 0 — for every input. -/
theorem linearToRGBM_black_M_floor :
    (linearToRGBM ⟨0, 0, 0⟩).w = 16 / 255 ∧
    ∀ v : float3, 0 < (linearToRGBM v).w := by
  refine ⟨linearToRGBM_black_w, fun v => ?_⟩
  rw [linearToRGBM_w]
  have h1 : (255 : ℝ) / 16 ≤ rgbmClampedMax v * 255 := by
    nlinarith [rgbmClampedMax_lower v]
  have h2 : (0 : ℝ) < (Int.ceil (rgbmClampedMax v * 255) : ℝ) :=
    lt_of_lt_of_le (by norm_num) (le_trans h1 (Int.le_ceil _))
  positivity

lemma rgbmClampedMax_le_M (v : float3) :
    rgbmClampedMax v ≤ (Int.ceil (rgbmClampedMax v * 255) : ℝ) / 255 := by
  have h := Int.le_ceil (rgbmClampedMax v * 255)
  linarith

lemma M_pos (v : float3) : 0 < (Int.ceil (rgbmClampedMax v * 255) : ℝ) / 255 :=
  lt_of_lt_of_le (by norm_num) (le_trans (rgbmClampedMax_lower v) (rgbmClampedMax_le_M v))

/-- Claim C3: for non-negative inputs, the RGBM multiplier `M` satisfies
`1/16 ≤ M ≤ 1`, is an exact multiple of `1/255`, is obtained by rounding
the clamped maximum component up (never down) to the next `1/255` step,
and the first three output components all lie in `[0, 1]`. -/
theorem linearToRGBM_M_invariants (v : float3)
    (hx : 0 ≤ v.x) (hy : 0 ≤ v.y) (hz : 0 ≤ v.z) :
    1 / 16 ≤ (linearToRGBM v).w ∧ (linearToRGBM v).w ≤ 1 ∧
    (∃ k : ℤ, (linearToRGBM v).w = (k : ℝ) / 255) ∧
    rgbmClampedMax v ≤ (linearToRGBM v).w ∧
    (linearToRGBM v).w < rgbmClampedMax v + 1 / 255 ∧
    0 ≤ (linearToRGBM v).x ∧ (linearToRGBM v).x ≤ 1 ∧
    0 ≤ (linearToRGBM v).y ∧ (linearToRGBM v).y ≤ 1 ∧
    0 ≤ (linearToRGBM v).z ∧ (linearToRGBM v).z ≤ 1 := by
  have hcM : rgbmClampedMax v ≤ (linearToRGBM v).w := by
    rw [linearToRGBM_w]; exact rgbmClampedMax_le_M v
  have hMle1 : (linearToRGBM v).w ≤ 1 := by
    rw [linearToRGBM_w]
    have hle : Int.ceil (rgbmClampedMax v * 255) ≤ 255 := by
      apply Int.ceil_le.mpr
      push_cast
      nlinarith [rgbmClampedMax_upper v]
    have hle2 : ((Int.ceil (rgbmClampedMax v * 255)) : ℝ) ≤ 255 := by exact_mod_cast hle
    linarith
  have hlt : (linearToRGBM v).w < rgbmClampedMax v + 1 / 255 := by
    rw [linearToRGBM_w]
    have h := Int.ceil_lt_add_one (rgbmClampedMax v * 255)
    linarith
  exact ⟨le_trans (rgbmClampedMax_lower v) hcM, hMle1,
    ⟨Int.ceil (rgbmClampedMax v * 255), linearToRGBM_w v⟩, hcM, hlt,
    saturate_nonneg _, saturate_le_one _, saturate_nonneg _, saturate_le_one _,
    saturate_nonneg _, saturate_le_one _⟩

/-- Witness for claim C3 at the black input. -/
theorem linearToRGBM_M_invariants_witness :
    1 / 16 ≤ (linearToRGBM (float3.mk 0 0 0)).w ∧
    (linearToRGBM (float3.mk 0 0 0)).w ≤ 1 ∧
    (∃ k : ℤ, (linearToRGBM (float3.mk 0 0 0)).w = (k : ℝ) / 255) ∧
    rgbmClampedMax (float3.mk 0 0 0) ≤ (linearToRGBM (float3.mk 0 0 0)).w ∧
    (linearToRGBM (float3.mk 0 0 0)).w < rgbmClampedMax (float3.mk 0 0 0) + 1 / 255 ∧
    0 ≤ (linearToRGBM (float3.mk 0 0 0)).x ∧ (linearToRGBM (float3.mk 0 0 0)).x ≤ 1 ∧
    0 ≤ (linearToRGBM (float3.mk 0 0 0)).y ∧ (linearToRGBM (float3.mk 0 0 0)).y ≤ 1 ∧
    0 ≤ (linearToRGBM (float3.mk 0 0 0)).z ∧ (linearToRGBM (float3.mk 0 0 0)).z ≤ 1 :=
  linearToRGBM_M_invariants (float3.mk 0 0 0) le_rfl le_rfl le_rfl

lemma sqrt_div16_le_one (t : ℝ) (h1 : t ≤ 16) : Real.sqrt t / 16 ≤ 1 := by
  have h4 : Real.sqrt t ≤ 4 := by
    have h := Real.sqrt_le_sqrt h1
    rwa [show (16 : ℝ) = 4 ^ 2 by norm_num, Real.sqrt_sq (by norm_num : (0:ℝ) ≤ 4)] at h
  linarith

lemma roundTrip_component (s M : ℝ) (hs0 : 0 ≤ s) (hM0 : 0 < M)
    (hsM : s / 16 ≤ M) :
    (saturate ((s / 16) / M) * (M * 16)) * (saturate ((s / 16) / M) * (M * 16))
      = s * s := by
  have h1 : saturate ((s / 16) / M) = (s / 16) / M :=
    saturate_eq_self _ (by positivity) ((div_le_one hM0).mpr hsM)
  rw [h1]
  field_simp
  ring

lemma RGBM_roundTrip_exact (v : float3)
    (hx0 : 0 ≤ v.x) (hx1 : v.x ≤ 16) (hy0 : 0 ≤ v.y) (hy1 : v.y ≤ 16)
    (hz0 : 0 ≤ v.z) (hz1 : v.z ≤ 16) :
    RGBMtoLinear (linearToRGBM v) = v := by
  have hmax1 : max (max (Real.sqrt v.x / 16) (Real.sqrt v.y / 16))
      (max (Real.sqrt v.z / 16) 1e-6) ≤ 1 :=
    max_le (max_le (sqrt_div16_le_one _ hx1) (sqrt_div16_le_one _ hy1))
      (max_le (sqrt_div16_le_one _ hz1) (by norm_num))
  have hx_mc : Real.sqrt v.x / 16 ≤ max (max (Real.sqrt v.x / 16) (Real.sqrt v.y / 16))
      (max (Real.sqrt v.z / 16) 1e-6) := le_trans (le_max_left _ _) (le_max_left _ _)
  have hy_mc : Real.sqrt v.y / 16 ≤ max (max (Real.sqrt v.x / 16) (Real.sqrt v.y / 16))
      (max (Real.sqrt v.z / 16) 1e-6) := le_trans (le_max_right _ _) (le_max_left _ _)
  have hz_mc : Real.sqrt v.z / 16 ≤ max (max (Real.sqrt v.x / 16) (Real.sqrt v.y / 16))
      (max (Real.sqrt v.z / 16) 1e-6) := le_trans (le_max_left _ _) (le_max_right _ _)
  have hxc : Real.sqrt v.x / 16 ≤ rgbmClampedMax v :=
    le_min (le_trans hx_mc (le_max_left _ _)) (le_trans hx_mc hmax1)
  have hyc : Real.sqrt v.y / 16 ≤ rgbmClampedMax v :=
    le_min (le_trans hy_mc (le_max_left _ _)) (le_trans hy_mc hmax1)
  have hzc : Real.sqrt v.z / 16 ≤ rgbmClampedMax v :=
    le_min (le_trans hz_mc (le_max_left _ _)) (le_trans hz_mc hmax1)
  have hM := rgbmClampedMax_le_M v
  have hM0 := M_pos v
  apply float3.ext
  · rw [show (RGBMtoLinear (linearToRGBM v)).x
        = (saturate ((Real.sqrt v.x / 16) / ((Int.ceil (rgbmClampedMax v * 255) : ℝ) / 255))
            * (((Int.ceil (rgbmClampedMax v * 255) : ℝ) / 255) * 16))
          * (saturate ((Real.sqrt v.x / 16) / ((Int.ceil (rgbmClampedMax v * 255) : ℝ) / 255))
            * (((Int.ceil (rgbmClampedMax v * 255) : ℝ) / 255) * 16)) from rfl]
    rw [roundTrip_component (Real.sqrt v.x) _ (Real.sqrt_nonneg _) hM0 (le_trans hxc hM)]
    exact Real.mul_self_sqrt hx0
  · rw [show (RGBMtoLinear (linearToRGBM v)).y
        = (saturate ((Real.sqrt v.y / 16) / ((Int.ceil (rgbmClampedMax v * 255) : ℝ) / 255))
            * (((Int.ceil (rgbmClampedMax v * 255) : ℝ) / 255) * 16))
          * (saturate ((Real.sqrt v.y / 16) / ((Int.ceil (rgbmClampedMax v * 255) : ℝ) / 255))
            * (((Int.ceil (rgbmClampedMax v * 255) : ℝ) / 255) * 16)) from rfl]
    rw [roundTrip_component (Real.sqrt v.y) _ (Real.sqrt_nonneg _) hM0 (le_trans hyc hM)]
    exact Real.mul_self_sqrt hy0
  · rw [show (RGBMtoLinear (linearToRGBM v)).z
        = (saturate ((Real.sqrt v.z / 16) / ((Int.ceil (rgbmClampedMax v * 255) : ℝ) / 255))
            * (((Int.ceil (rgbmClampedMax v * 255) : ℝ) / 255) * 16))
          * (saturate ((Real.sqrt v.z / 16) / ((Int.ceil (rgbmClampedMax v * 255) : ℝ) / 255))
            * (((Int.ceil (rgbmClampedMax v * 255) : ℝ) / 255) * 16)) from rfl]
    rw [roundTrip_component (Real.sqrt v.z) _ (Real.sqrt_nonneg _) hM0 (le_trans hzc hM)]
    exact Real.mul_self_sqrt hz0

/-- Claim C4: for every linear triple with components in `[0, 16]`, the
pure float round trip `RGBMtoLinear(linearToRGBM(v))` is within `1e-3`
relative error per component (in the real-arithmetic model of the float
code it is in fact exact, since the quantized multiplier cancels). -/
theorem RGBM_roundTrip_relError (v : float3)
    (hx0 : 0 ≤ v.x) (hx1 : v.x ≤ 16) (hy0 : 0 ≤ v.y) (hy1 : v.y ≤ 16)
    (hz0 : 0 ≤ v.z) (hz1 : v.z ≤ 16) :
    |(RGBMtoLinear (linearToRGBM v)).x - v.x| ≤ 1e-3 * v.x ∧
    |(RGBMtoLinear (linearToRGBM v)).y - v.y| ≤ 1e-3 * v.y ∧
    |(RGBMtoLinear (linearToRGBM v)).z - v.z| ≤ 1e-3 * v.z := by
  rw [RGBM_roundTrip_exact v hx0 hx1 hy0 hy1 hz0 hz1]
  refine ⟨?_, ?_, ?_⟩ <;> rw [sub_self, abs_zero] <;> positivity

/-- Witness for claim C4 at the input `(1, 2, 3)`. -/
theorem RGBM_roundTrip_relError_witness :
    |(RGBMtoLinear (linearToRGBM (float3.mk 1 2 3))).x - (float3.mk 1 2 3).x| ≤
      1e-3 * (float3.mk 1 2 3).x ∧
    |(RGBMtoLinear (linearToRGBM (float3.mk 1 2 3))).y - (float3.mk 1 2 3).y| ≤
      1e-3 * (float3.mk 1 2 3).y ∧
    |(RGBMtoLinear (linearToRGBM (float3.mk 1 2 3))).z - (float3.mk 1 2 3).z| ≤
      1e-3 * (float3.mk 1 2 3).z :=
  RGBM_roundTrip_relError (float3.mk 1 2 3) (by norm_num) (by norm_num)
    (by norm_num) (by norm_num) (by norm_num) (by norm_num)

/-- Claim C9: the 4-component `sRGBToLinear` copies the fourth component
through unchanged and maps each of the first three components
independently by the scalar piecewise rule. -/
theorem sRGBToLinear4_alpha_passthrough (v : float4) :
    (sRGBToLinear4 v).w = v.w ∧
    (sRGBToLinear4 v).x = sRGBToLinearScalarRule v.x ∧
    (sRGBToLinear4 v).y = sRGBToLinearScalarRule v.y ∧
    (sRGBToLinear4 v).z = sRGBToLinearScalarRule v.z := by
  refine ⟨rfl, ?_, ?_, ?_⟩ <;>
    · simp only [sRGBToLinear4, sRGBToLinearScalarRule]
      split_ifs <;> ring

/-- Claim C10: the two independent float3 linear-to-sRGB implementations
in the file, `linearTosRGB` and `linearToSRGB`, agree on every input. -/
theorem linearTosRGB_eq_linearToSRGB (v : float3) :
    linearTosRGB v = linearToSRGB3 v := by
  apply float3.ext <;>
    · simp only [linearTosRGB, linearToSRGB3]
      split_ifs <;> ring

lemma length_flatMap_range {α : Type} (f : ℕ → List α) (c n : ℕ)
    (hf : ∀ k, k < n → (f k).length = c) :
    ((List.range n).flatMap f).length = n * c := by
  induction n with
  | zero => simp
  | succ m ih =>
      rw [List.range_succ, List.flatMap_append, List.length_append,
        ih (fun k hk => hf k (Nat.lt_succ_of_lt hk))]
      simp [hf m (Nat.lt_succ_self m), Nat.succ_mul]

lemma getD_flatMap_range {α : Type} (f : ℕ → List α) (c n k i : ℕ) (d : α)
    (hf : ∀ j, j < n → (f j).length = c) (hk : k < n) (hi : i < c) :
    ((List.range n).flatMap f).getD (k * c + i) d = (f k).getD i d := by
  induction n with
  | zero => omega
  | succ m ih =>
      rw [List.range_succ, List.flatMap_append]
      have hlen : ((List.range m).flatMap f).length = m * c :=
        length_flatMap_range f c m (fun j hj => hf j (Nat.lt_succ_of_lt hj))
      rcases Nat.lt_succ_iff_lt_or_eq.mp hk with h | h
      · rw [List.getD_append _ _ _ _ (by rw [hlen]; calc
            k * c + i < k * c + c := by omega
            _ = (k + 1) * c := by ring
            _ ≤ m * c := Nat.mul_le_mul_right c h)]
        exact ih (fun j hj => hf j (Nat.lt_succ_of_lt hj)) h
      · subst h
        rw [List.getD_append_right _ _ _ _ (by rw [hlen]; omega)]
        simp [hlen]

lemma getD_map_range {α : Type} (g : ℕ → α) (n x : ℕ) (d : α) (hx : x < n) :
    ((List.range n).map g).getD x d = g x := by
  rw [List.getD_eq_getElem _ _ (by simpa using hx)]
  simp

lemma flatMap_range_congr {α : Type} (f g : ℕ → List α) (n : ℕ)
    (h : ∀ k, k < n → f k = g k) :
    (List.range n).flatMap f = (List.range n).flatMap g := by
  induction n with
  | zero => simp
  | succ m ih =>
      rw [List.range_succ, List.flatMap_append, List.flatMap_append,
        ih (fun k hk => h k (Nat.lt_succ_of_lt hk))]
      simp [h m (Nat.lt_succ_self m)]

lemma map_range_congr {α : Type} (f g : ℕ → α) (n : ℕ)
    (h : ∀ k, k < n → f k = g k) :
    (List.range n).map f = (List.range n).map g :=
  List.map_congr_left (fun a ha => h a (List.mem_range.mp ha))

lemma truncCast_natCast (m : ℕ) : truncCast (m : ℝ) = m := by
  unfold truncCast
  rw [if_pos (by positivity)]
  exact Int.floor_natCast m

lemma truncCast_bounds (q : ℝ) (m : ℕ) :
    0 ≤ truncCast (saturate q * (m : ℝ)) ∧
    truncCast (saturate q * (m : ℝ)) ≤ (m : ℤ) := by
  have h0 : 0 ≤ saturate q * (m : ℝ) :=
    mul_nonneg (saturate_nonneg q) (by positivity)
  have h1 : saturate q * (m : ℝ) ≤ (m : ℝ) :=
    mul_le_of_le_one_left (by positivity) (saturate_le_one q)
  unfold truncCast
  rw [if_pos h0]
  exact ⟨Int.floor_nonneg.mpr h0,
    le_trans (Int.floor_mono h1) (le_of_eq (Int.floor_natCast m))⟩

lemma truncCast_sat_mul_of_gt (q : ℝ) (m : ℕ) (h : 1 < q) :
    truncCast (saturate q * (m : ℝ)) = (m : ℤ) := by
  rw [saturate_eq_one q (le_of_lt h), one_mul, truncCast_natCast]

/-- Claim C5: for a linear image with at least 3 channels,
`fromLinearTosRGB` produces a tightly packed row-major buffer of
`width * height * 3` samples (each `sizeof(T)` bytes), where the 3
samples of pixel `(x, y)` start at element index `(y*width + x)*3` and
equal the saturated first three channels pushed through `linearTosRGB`,
scaled by `maxT` and truncated; channels beyond the first three are
ignored. -/
theorem fromLinearTosRGB_spec (maxT : ℕ) (img : LinearImage)
    (h3 : 3 ≤ img.channels) :
    ∃ l : List ℤ,
      fromLinearTosRGB maxT img = some l ∧
      l.length = img.width * img.height * 3 ∧
      (∀ y, y < img.height → ∀ x, x < img.width → ∀ i, i < 3 →
        l.getD ((y * img.width + x) * 3 + i) 0 =
          truncCast (comp3 (mulScalar3 (linearTosRGB (saturate3 (img.get3 x y)))
            (maxT : ℝ)) i)) ∧
      (∀ img2 : LinearImage, img2.width = img.width → img2.height = img.height →
        3 ≤ img2.channels → (∀ x y c, c < 3 → img2.pix x y c = img.pix x y c) →
        fromLinearTosRGB maxT img2 = some l) := by
  refine ⟨(List.range img.height).flatMap fun y =>
      (List.range img.width).flatMap fun x =>
        let l := mulScalar3 (linearTosRGB (saturate3 (img.get3 x y))) (maxT : ℝ)
        [truncCast l.x, truncCast l.y, truncCast l.z], ?_, ?_, ?_, ?_⟩
  · unfold fromLinearTosRGB
    rw [if_pos h3]
  · have h1 : ∀ y, y < img.height → (((List.range img.width).flatMap fun x =>
        let l := mulScalar3 (linearTosRGB (saturate3 (img.get3 x y))) (maxT : ℝ)
        [truncCast l.x, truncCast l.y, truncCast l.z]) : List ℤ).length =
          img.width * 3 :=
      fun y hy => length_flatMap_range _ 3 _ (fun x hx => rfl)
    rw [length_flatMap_range _ (img.width * 3) _ h1]
    ring
  · intro y hy x hx i hi
    have h1 : ∀ j, j < img.height → (((List.range img.width).flatMap fun x =>
        let l := mulScalar3 (linearTosRGB (saturate3 (img.get3 x j))) (maxT : ℝ)
        [truncCast l.x, truncCast l.y, truncCast l.z]) : List ℤ).length =
          img.width * 3 :=
      fun j hj => length_flatMap_range _ 3 _ (fun x2 hx2 => rfl)
    have h2 : ∀ j, j < img.width → ((fun x =>
        let l := mulScalar3 (linearTosRGB (saturate3 (img.get3 x y))) (maxT : ℝ)
        ([truncCast l.x, truncCast l.y, truncCast l.z] : List ℤ)) j).length = 3 :=
      fun j hj => rfl
    rw [show (y * img.width + x) * 3 + i = y * (img.width * 3) + (x * 3 + i) by ring]
    rw [getD_flatMap_range _ (img.width * 3) _ _ _ _ h1 hy (by omega)]
    rw [getD_flatMap_range _ 3 _ _ _ _ h2 hx hi]
    interval_cases i <;> simp [comp3, mulScalar3]
  · intro img2 hw hh h3b hpix
    unfold fromLinearTosRGB
    rw [if_pos h3b]
    rw [hw, hh]
    congr 1
    apply flatMap_range_congr
    intro y hy
    apply flatMap_range_congr
    intro x hx
    have hg : img2.get3 x y = img.get3 x y := by
      unfold LinearImage.get3
      rw [hpix x y 0 (by norm_num), hpix x y 1 (by norm_num),
        hpix x y 2 (by norm_num)]
    rw [hg]

/-- Witness for claim C5 at a concrete 1×1 three-channel image. -/
theorem fromLinearTosRGB_spec_witness :
    ∃ l : List ℤ,
      fromLinearTosRGB 255 img3ch = some l ∧
      l.length = img3ch.width * img3ch.height * 3 ∧
      (∀ y, y < img3ch.height → ∀ x, x < img3ch.width → ∀ i, i < 3 →
        l.getD ((y * img3ch.width + x) * 3 + i) 0 =
          truncCast (comp3 (mulScalar3 (linearTosRGB (saturate3 (img3ch.get3 x y)))
            ((255 : ℕ) : ℝ)) i)) ∧
      (∀ img2 : LinearImage, img2.width = img3ch.width → img2.height = img3ch.height →
        3 ≤ img2.channels → (∀ x y c, c < 3 → img2.pix x y c = img3ch.pix x y c) →
        fromLinearTosRGB 255 img2 = some l) :=
  fromLinearTosRGB_spec 255 img3ch (by norm_num [img3ch])

/-- Claim C8: for an image with at least 3 channels, any pixel channel
strictly greater than 1 is written as exactly `maxT` (the maximum
representable value of `T`), and every output sample of
`fromLinearToRGB` lies in `[0, maxT]` for arbitrary inputs — no
wraparound or out-of-range conversion. -/
theorem fromLinearToRGB_saturation (maxT : ℕ) (img : LinearImage)
    (h3 : 3 ≤ img.channels) :
    ∃ l : List ℤ,
      fromLinearToRGB maxT img = some l ∧
      (∀ y, y < img.height → ∀ x, x < img.width → ∀ i, i < 3 →
        1 < comp3 (img.get3 x y) i →
        l.getD ((y * img.width + x) * 3 + i) 0 = (maxT : ℤ)) ∧
      (∀ e ∈ l, 0 ≤ e ∧ e ≤ (maxT : ℤ)) := by
  refine ⟨(List.range img.height).flatMap fun y =>
      (List.range img.width).flatMap fun x =>
        let l := mulScalar3 (saturate3 (img.get3 x y)) (maxT : ℝ)
        [truncCast l.x, truncCast l.y, truncCast l.z], ?_, ?_, ?_⟩
  · unfold fromLinearToRGB
    rw [if_pos h3]
  · intro y hy x hx i hi hgt
    have h1 : ∀ j, j < img.height → (((List.range img.width).flatMap fun x =>
        let l := mulScalar3 (saturate3 (img.get3 x j)) (maxT : ℝ)
        [truncCast l.x, truncCast l.y, truncCast l.z]) : List ℤ).length =
          img.width * 3 :=
      fun j hj => length_flatMap_range _ 3 _ (fun x2 hx2 => rfl)
    have h2 : ∀ j, j < img.width → ((fun x =>
        let l := mulScalar3 (saturate3 (img.get3 x y)) (maxT : ℝ)
        ([truncCast l.x, truncCast l.y, truncCast l.z] : List ℤ)) j).length = 3 :=
      fun j hj => rfl
    rw [show (y * img.width + x) * 3 + i = y * (img.width * 3) + (x * 3 + i) by ring]
    rw [getD_flatMap_range _ (img.width * 3) _ _ _ _ h1 hy (by omega)]
    rw [getD_flatMap_range _ 3 _ _ _ _ h2 hx hi]
    interval_cases i
    · have hgt0 : 1 < (img.get3 x y).x := by simpa [comp3] using hgt
      exact truncCast_sat_mul_of_gt _ maxT hgt0
    · have hgt1 : 1 < (img.get3 x y).y := by simpa [comp3] using hgt
      exact truncCast_sat_mul_of_gt _ maxT hgt1
    · have hgt2 : 1 < (img.get3 x y).z := by simpa [comp3] using hgt
      exact truncCast_sat_mul_of_gt _ maxT hgt2
  · intro e he
    rw [List.mem_flatMap] at he
    obtain ⟨y, hy, he2⟩ := he
    rw [List.mem_flatMap] at he2
    obtain ⟨x, hx, he3⟩ := he2
    simp only [List.mem_cons, List.not_mem_nil, or_false] at he3
    rcases he3 with h | h | h <;> subst h
    · exact truncCast_bounds (img.get3 x y).x maxT
    · exact truncCast_bounds (img.get3 x y).y maxT
    · exact truncCast_bounds (img.get3 x y).z maxT

/-- Witness for claim C8 at a concrete 1×1 three-channel image. -/
theorem fromLinearToRGB_saturation_witness :
    ∃ l : List ℤ,
      fromLinearToRGB 255 img3ch = some l ∧
      (∀ y, y < img3ch.height → ∀ x, x < img3ch.width → ∀ i, i < 3 →
        1 < comp3 (img3ch.get3 x y) i →
        l.getD ((y * img3ch.width + x) * 3 + i) 0 = ((255 : ℕ) : ℤ)) ∧
      (∀ e ∈ l, 0 ≤ e ∧ e ≤ ((255 : ℕ) : ℤ)) :=
  fromLinearToRGB_saturation 255 img3ch (by norm_num [img3ch])

/-- Claim C7: `fromLinearToGrayscale` on an image whose channel count is
not 1 fails the contract assertion and produces no buffer at all, while
under the precondition `channels = 1` it completes the full
`width × height` sweep, producing one saturated, scaled, truncated sample
per pixel. -/
theorem fromLinearToGrayscale_contract (maxT : ℕ) (img : LinearImage) :
    (img.channels ≠ 1 → fromLinearToGrayscale maxT img = none) ∧
    (img.channels = 1 →
      ∃ l : List ℤ, fromLinearToGrayscale maxT img = some l ∧
        l.length = img.width * img.height ∧
        ∀ y, y < img.height → ∀ x, x < img.width →
          l.getD (y * img.width + x) 0 =
            truncCast (saturate (img.pix x y 0) * (maxT : ℝ))) := by
  constructor
  · intro h
    unfold fromLinearToGrayscale
    rw [if_neg h]
  · intro h
    refine ⟨(List.range img.height).flatMap fun y =>
        (List.range img.width).map fun x =>
          truncCast (saturate (img.pix x y 0) * (maxT : ℝ)), ?_, ?_, ?_⟩
    · unfold fromLinearToGrayscale
      rw [if_pos h]
    · have h1 : ∀ y, y < img.height → (((List.range img.width).map fun x =>
          truncCast (saturate (img.pix x y 0) * (maxT : ℝ))) : List ℤ).length =
            img.width :=
        fun y hy => by simp
      rw [length_flatMap_range _ img.width _ h1]
      ring
    · intro y hy x hx
      have h1 : ∀ j, j < img.height → (((List.range img.width).map fun x =>
          truncCast (saturate (img.pix x j 0) * (maxT : ℝ))) : List ℤ).length =
            img.width :=
        fun j hj => by simp
      rw [getD_flatMap_range _ img.width _ _ _ _ h1 hy hx]
      exact getD_map_range _ _ _ _ hx

/-- Witness for claim C7: a 1×1 two-channel image is rejected, a 1×1
single-channel image is fully converted. -/
theorem fromLinearToGrayscale_contract_witness :
    fromLinearToGrayscale 255 img2ch = none ∧
    (∃ l : List ℤ, fromLinearToGrayscale 255 img1ch = some l ∧
      l.length = img1ch.width * img1ch.height ∧
      ∀ y, y < img1ch.height → ∀ x, x < img1ch.width →
        l.getD (y * img1ch.width + x) 0 =
          truncCast (saturate (img1ch.pix x y 0) * ((255 : ℕ) : ℝ))) :=
  ⟨(fromLinearToGrayscale_contract 255 img2ch).1 (by norm_num [img2ch]),
   (fromLinearToGrayscale_contract 255 img1ch).2 rfl⟩

lemma toLinear_pix (sizeofT maxT w h bpr : ℕ) (src : ℕ → ℕ)
    (proc : ℕ → ℝ) (transform : float3 → float3) (x y c : ℕ) :
    (toLinear sizeofT maxT w h bpr src proc transform).pix x y c =
      comp3 ((toLinearBuf sizeofT maxT w h bpr src proc transform).getD
        (y * w + x) ⟨0, 0, 0⟩) c := rfl

/-- Claim C6: `toLinear<T>` yields a `w × h` 3-channel image whose pixel
`(x, y)` is the transform of the vector of decoded samples read at byte
offsets `y*bpr + (x*3 + k)*sizeof(T)` for `k = 0, 1, 2`, divided by
`maxT`; and the result depends only on the first `w*3*sizeof(T)` bytes of
each row, so row padding beyond them cannot affect it. (`sizeof(T)` is
positive for every C++ type.) -/
theorem toLinear_spec (sizeofT maxT w h bpr : ℕ) (src : ℕ → ℕ)
    (proc : ℕ → ℝ) (transform : float3 → float3) (hs : 0 < sizeofT) :
    (toLinear sizeofT maxT w h bpr src proc transform).width = w ∧
    (toLinear sizeofT maxT w h bpr src proc transform).height = h ∧
    (toLinear sizeofT maxT w h bpr src proc transform).channels = 3 ∧
    (∀ x, x < w → ∀ y, y < h → ∀ c,
      (toLinear sizeofT maxT w h bpr src proc transform).pix x y c =
        comp3 (transform (divScalar3
          ⟨proc (src (y * bpr + (x * 3) * sizeofT)),
           proc (src (y * bpr + (x * 3 + 1) * sizeofT)),
           proc (src (y * bpr + (x * 3 + 2) * sizeofT))⟩ (maxT : ℝ))) c) ∧
    (∀ src2 : ℕ → ℕ,
      (∀ y, y < h → ∀ t, t < w * 3 * sizeofT → src2 (y * bpr + t) = src (y * bpr + t)) →
      toLinear sizeofT maxT w h bpr src2 proc transform =
        toLinear sizeofT maxT w h bpr src proc transform) := by
  refine ⟨rfl, rfl, rfl, ?_, ?_⟩
  · intro x hx y hy c
    rw [toLinear_pix]
    unfold toLinearBuf
    have h1 : ∀ j, j < h → (((List.range w).map fun x =>
        transform (divScalar3
          ⟨proc (src (j * bpr + (x * 3) * sizeofT)),
           proc (src (j * bpr + (x * 3 + 1) * sizeofT)),
           proc (src (j * bpr + (x * 3 + 2) * sizeofT))⟩ (maxT : ℝ))) :
          List float3).length = w :=
      fun j hj => by simp
    rw [getD_flatMap_range _ w _ _ _ _ h1 hy hx]
    rw [getD_map_range _ _ _ _ hx]
  · intro src2 hsrc
    unfold toLinear
    have hbuf : toLinearBuf sizeofT maxT w h bpr src2 proc transform =
        toLinearBuf sizeofT maxT w h bpr src proc transform := by
      unfold toLinearBuf
      apply flatMap_range_congr
      intro y hy
      apply map_range_congr
      intro x hx
      rw [hsrc y hy ((x * 3) * sizeofT)
          (mul_lt_mul_of_pos_right (by omega) hs),
        hsrc y hy ((x * 3 + 1) * sizeofT)
          (mul_lt_mul_of_pos_right (by omega) hs),
        hsrc y hy ((x * 3 + 2) * sizeofT)
          (mul_lt_mul_of_pos_right (by omega) hs)]
    rw [hbuf]

/-- Witness for claim C6 at concrete parameters: a 1×1 image read from a
3-byte row of an identity byte buffer with identity decode and identity
transform. -/
theorem toLinear_spec_witness :
    (toLinear 1 255 1 1 3 (fun k => k) (fun n => (n : ℝ)) (fun v => v)).width = 1 ∧
    (toLinear 1 255 1 1 3 (fun k => k) (fun n => (n : ℝ)) (fun v => v)).height = 1 ∧
    (toLinear 1 255 1 1 3 (fun k => k) (fun n => (n : ℝ)) (fun v => v)).channels = 3 ∧
    (∀ x, x < 1 → ∀ y, y < 1 → ∀ c,
      (toLinear 1 255 1 1 3 (fun k => k) (fun n => (n : ℝ)) (fun v => v)).pix x y c =
        comp3 (divScalar3
          (float3.mk ((y * 3 + (x * 3) * 1 : ℕ) : ℝ)
            ((y * 3 + (x * 3 + 1) * 1 : ℕ) : ℝ)
            ((y * 3 + (x * 3 + 2) * 1 : ℕ) : ℝ))
          ((255 : ℕ) : ℝ)) c) ∧
    (∀ src2 : ℕ → ℕ,
      (∀ y, y < 1 → ∀ t, t < 1 * 3 * 1 → src2 (y * 3 + t) = (fun k => k) (y * 3 + t)) →
      toLinear 1 255 1 1 3 src2 (fun n => (n : ℝ)) (fun v => v) =
        toLinear 1 255 1 1 3 (fun k => k) (fun n => (n : ℝ)) (fun v => v)) :=
  toLinear_spec 1 255 1 1 3 (fun k => k) (fun n => (n : ℝ)) (fun v => v) (by norm_num)
